import Mathlib

/-!
Timing-query aggregation of `ord::Design` (`src/Design.cc`)

A shallow embedding of the slew and arrival queries of `ord::Design`:
`slew_corner`, `getPinSlew`, `cmdLinkedNetwork`, `cmdGraph`, `vertices`,
`arrivalsClk`, `isTimeInf`, `getPinArrivalTime`, `findClocksMatching`,
`defaultArrivalClock` and `getPinArrival`.

Modelling choices.

* A C++ `float` delay or slew is a rational number: every finite float is one,
  and the only operations the code applies to these values (`<`, `>`,
  `std::max`) are exact on floats.  The literal `1e+10` is exactly
  representable as a float.
* The timing engine (`sta::Sta`, `sta::dbSta`, the SDC, the graph) is owned by
  code outside this source file; the queries only read it.  It is therefore a
  record `Sta` of the values and lookup functions the queries consult.
* `sta::INF` is declared outside this source file; every function that uses
  it takes it as its first parameter `INF`.
* A pointer that the code tests against `nullptr` is an `Option`.
* `utl::Logger::error` raises; a query is a computation in `Except LogError`.
-/

namespace Design

/-! ## Data model -/

/-- Signal or clock edge polarity, `sta::RiseFall`. -/
inductive RiseFall where
  | rise
  | fall
  deriving DecidableEq, Repr

/-- Delay analysis mode, `sta::MinMax`. -/
inductive MinMax where
  | min
  | max
  deriving DecidableEq, Repr

/-- Identity of a timing-graph vertex (`sta::Vertex*`, non-null). -/
abbrev Vertex := Nat

/-- Identity of a network pin (`sta::Pin*`). -/
abbrev Pin := Nat

/-- Identity of a database instance terminal (`odb::dbITerm*`). -/
abbrev ITerm := Nat

/-- Identity of an analysis corner (`sta::Corner*`). -/
abbrev Corner := Nat

/-- Identity of a clock (`sta::Clock*`, non-null). -/
abbrev Clock := Nat

/-- Identity of a path analysis point (`sta::PathAnalysisPt*`). -/
abbrev PathAnalysisPt := Nat

/-- The edge `clk->edge(clk_rf)` of a clock (`sta::ClockEdge*`, non-null). -/
structure ClockEdge where
  clk : Clock
  rf : RiseFall
  deriving DecidableEq, Repr

/-- The command network, of which the queries read `isLinked()` only. -/
structure Network where
  isLinked : Bool
  deriving DecidableEq, Repr

/-- The timing graph, of which the queries use `pinVertices` only: the vertex
of a pin and the driver vertex of a bidirectional pin, either possibly null. -/
structure Graph where
  pinVertices : Pin → Option Vertex × Option Vertex

/-- What `utl::Logger::error(tool, id, message)` reports. -/
structure LogError where
  tool : String
  id : Nat
  msg : String
  deriving DecidableEq, Repr

/-- The state of the timing engine as far as the queries read it. -/
structure Sta where
  /-- The result of `sta::Sta::sta()->cmdNetwork()`. -/
  cmdNetwork : Network
  /-- The result of `sta::Sta::sta()->ensureGraph()`. -/
  ensureGraph : Graph
  /-- The map `getDbNetwork()->dbToSta(db_pin)`. -/
  dbToSta : ITerm → Pin
  /-- The sequence `getSta()->corners()`. -/
  corners : List Corner
  /-- The sequence `sta->corners()->pathAnalysisPts()`. -/
  pathAnalysisPts : List PathAnalysisPt
  /-- The value `delayAsFloat(sta->vertexSlew(vertex, rf, corner, min_max))`. -/
  vertexSlew : Vertex → RiseFall → Corner → MinMax → ℚ
  /-- The value
  `delayAsFloat(sta->vertexArrival(vertex, rf, clk_edge, path_ap, nullptr))`. -/
  vertexArrival : Vertex → RiseFall → Option ClockEdge → PathAnalysisPt → ℚ
  /-- The result of `sdc()->defaultArrivalClock()`. -/
  sdcDefaultArrivalClock : Clock
  /-- The result of `sdc()->findClocksMatching(&matcher)` for the matcher
  built from `(pattern, regexp, nocase)`. -/
  sdcFindClocksMatching : String → Bool → Bool → List Clock

/-! ## Operations of `Design.cc` -/

/-- The C++ `std::max(a, b)`, which is `(a < b) ? b : a`. -/
def stdMax (a b : ℚ) : ℚ := if a < b then b else a

/-- Modelled from the spec: `utl::Logger::error` is declared outside this
source file.  The spec's error-handling section says a precondition violation
is "fatal to the current query, surfaced immediately, no partial result
returned", so the call raises the report and does not return. -/
def loggerError {α : Type} (tool : String) (id : Nat) (msg : String) :
    Except LogError α :=
  Except.error ⟨tool, id, msg⟩

/-- Embeds `Design::getCorners`. -/
def getCorners (st : Sta) : List Corner := st.corners

/-- Embeds `Design::slew_corner`: the max over the corners of the rise slew at
max-delay mode, starting from `-sta::INF`. -/
def slew_corner (INF : ℚ) (st : Sta) (vertex : Vertex) : ℚ :=
  (getCorners st).foldl
    (fun slew_max corner =>
      stdMax slew_max (st.vertexSlew vertex RiseFall.rise corner MinMax.max))
    (-INF)

/-- Embeds `Design::cmdLinkedNetwork`. -/
def cmdLinkedNetwork (st : Sta) : Except LogError Network :=
  let network := st.cmdNetwork
  if network.isLinked then
    Except.ok network
  else
    loggerError "ORD" 104 "STA network is not linked."

/-- Embeds `Design::cmdGraph`. -/
def cmdGraph (st : Sta) : Except LogError Graph := do
  let _ ← cmdLinkedNetwork st
  pure st.ensureGraph

/-- Embeds `Design::vertices`: the two-slot array `{vertex, vertex_bidirect_drvr}`. -/
def vertices (st : Sta) (pin : Pin) :
    Except LogError (Option Vertex × Option Vertex) := do
  let graph ← cmdGraph st
  let (vertex, vertex_bidirect_drvr) := graph.pinVertices pin
  pure (vertex, vertex_bidirect_drvr)

/-- Embeds `Design::getPinSlew`. -/
def getPinSlew (INF : ℚ) (st : Sta) (db_pin : ITerm) : Except LogError ℚ := do
  let sta_pin := st.dbToSta db_pin
  let vertex_array ← vertices st sta_pin
  pure <| [vertex_array.1, vertex_array.2].foldl
    (fun pinSlew vertex =>
      match vertex with
      | some v => stdMax pinSlew (slew_corner INF st v)
      | none => pinSlew)
    (-INF)

/-- Embeds `Design::arrivalsClk`: one arrival per path analysis point, fetched for
signal polarity `rf` relative to the edge `clk_rf` of `clk`, or to no clock
edge when `clk` is null. -/
def arrivalsClk (st : Sta) (rf : RiseFall) (clk : Option Clock)
    (clk_rf : RiseFall) (vertex : Vertex) : List ℚ :=
  let clk_edge : Option ClockEdge :=
    match clk with
    | some c => some ⟨c, clk_rf⟩
    | none => none
  st.pathAnalysisPts.map (fun path_ap => st.vertexArrival vertex rf clk_edge path_ap)

/-- Embeds `Design::isTimeInf`. -/
def isTimeInf (time : ℚ) : Bool := time > 1e10 || time < -1e10

/-- Embeds `Design::getPinArrivalTime`. -/
def getPinArrivalTime (INF : ℚ) (st : Sta) (clk : Option Clock)
    (clk_rf : RiseFall) (vertex : Vertex) (arrrive_or_hold : String) : ℚ :=
  let rf := if arrrive_or_hold = "arrive" then RiseFall.rise else RiseFall.fall
  let times := arrivalsClk st rf clk clk_rf vertex
  times.foldl
    (fun delay delay_time =>
      if !isTimeInf delay_time then stdMax delay delay_time else delay)
    (-INF)

/-- Embeds `Design::findClocksMatching`. -/
def findClocksMatching (st : Sta) (pattern : String) (regexp nocase : Bool) :
    Except LogError (List Clock) := do
  let _ ← cmdLinkedNetwork st
  pure (st.sdcFindClocksMatching pattern regexp nocase)

/-- Embeds `Design::defaultArrivalClock`. -/
def defaultArrivalClock (st : Sta) : Clock := st.sdcDefaultArrivalClock

/-- Embeds `Design::getPinArrival`. -/
def getPinArrival (INF : ℚ) (st : Sta) (db_pin : ITerm) (rf : String) :
    Except LogError ℚ := do
  let sta_pin := st.dbToSta db_pin
  let vertex_arrray ← vertices st sta_pin
  [vertex_arrray.1, vertex_arrray.2].foldlM
    (fun delay vertex =>
      match vertex with
      | some v => do
        let arrival_or_hold := if rf = "rise" then "arrive" else "hold"
        let delay := stdMax delay
          (getPinArrivalTime INF st none RiseFall.rise v arrival_or_hold)
        let delay := stdMax delay
          (getPinArrivalTime INF st (some (defaultArrivalClock st)) RiseFall.rise v
            arrival_or_hold)
        let clks ← findClocksMatching st "*" false false
        pure <| clks.foldl
          (fun delay clk =>
            stdMax
              (stdMax delay
                (getPinArrivalTime INF st (some clk) RiseFall.rise v arrival_or_hold))
              (getPinArrivalTime INF st (some clk) RiseFall.fall v arrival_or_hold))
          delay
      | none => pure delay)
    (-1)

/-! ## Reference notions the properties are stated with -/

/-- The non-null slots of the vertex array, in loop order. -/
def presentVertices (p : Option Vertex × Option Vertex) : List Vertex :=
  p.1.toList ++ p.2.toList

/-- The slews a slew query over the vertices `vs` consults: for each vertex,
for each corner, the rise slew at max-delay mode. -/
def slewsOver (st : Sta) (vs : List Vertex) : List ℚ :=
  vs.flatMap fun v =>
    st.corners.map fun c => st.vertexSlew v RiseFall.rise c MinMax.max

/-- The slews consulted for a pin: those of its present vertices. -/
def fetchedSlews (st : Sta) (pin : Pin) : List ℚ :=
  slewsOver st (presentVertices (st.ensureGraph.pinVertices pin))

/-- The clock-edge candidates of an arrival query: no clock edge, the rise
edge of the default arrival clock, then the rise and fall edge of each named
clock in `clks`. -/
def clockEdgeCandidates (dflt : Clock) (clks : List Clock) :
    List (Option ClockEdge) :=
  none :: some ⟨dflt, RiseFall.rise⟩ ::
    clks.flatMap fun c => [some ⟨c, RiseFall.rise⟩, some ⟨c, RiseFall.fall⟩]

/-- The arrivals of signal polarity `rf` at the vertices `vs`, over the
clock-edge candidates `ces` and every path analysis point. -/
def arrivalsOver (st : Sta) (rf : RiseFall) (ces : List (Option ClockEdge))
    (vs : List Vertex) : List ℚ :=
  vs.flatMap fun v =>
    ces.flatMap fun ce =>
      st.pathAnalysisPts.map fun ap => st.vertexArrival v rf ce ap

/-- The arrivals an arrival query for a pin consults: present vertices, all
clock-edge candidates (named clocks are those matching `*`), all path
analysis points. -/
def fetchedArrivals (st : Sta) (pin : Pin) (rf : RiseFall) : List ℚ :=
  arrivalsOver st rf
    (clockEdgeCandidates st.sdcDefaultArrivalClock
      (st.sdcFindClocksMatching "*" false false))
    (presentVertices (st.ensureGraph.pinVertices pin))

/-- The arrivals of the first two candidate tiers only: no clock edge and the
rise edge of the default arrival clock, at the present vertices of a pin. -/
def twoTierArrivals (st : Sta) (pin : Pin) (rf : RiseFall) : List ℚ :=
  arrivalsOver st rf [none, some ⟨st.sdcDefaultArrivalClock, RiseFall.rise⟩]
    (presentVertices (st.ensureGraph.pinVertices pin))

/-- The values that are not sentinels. -/
def nonSentinel (l : List ℚ) : List ℚ := l.filter fun t => !isTimeInf t

/-- The fetched arrivals that survive the sentinel filter. -/
def validArrivals (st : Sta) (pin : Pin) (rf : RiseFall) : List ℚ :=
  nonSentinel (fetchedArrivals st pin rf)

/-- The valid arrivals of vertex `v` relative to the candidate `ce`. -/
def validAt (st : Sta) (pol : RiseFall) (v : Vertex) (ce : Option ClockEdge) : List ℚ :=
  nonSentinel (st.pathAnalysisPts.map fun ap => st.vertexArrival v pol ce ap)

/-- The maximum of a list, `d` for the empty list. -/
def maxOr (d : ℚ) : List ℚ → ℚ
  | [] => d
  | x :: xs => xs.foldl max x

/-- The signal polarity the string argument of `getPinArrival` selects. -/
def signalPolarity (rf : String) : RiseFall :=
  if rf = "rise" then RiseFall.rise else RiseFall.fall

/-! ## Concrete engine states -/

/-- A linked engine state with the identity pin map and default arrival
clock 0, built from the graph lookup, the corners, the path analysis points,
the named clocks and the two value tables. -/
def demoSta (pv : Pin → Option Vertex × Option Vertex) (corners : List Corner)
    (aps : List PathAnalysisPt) (clks : List Clock)
    (slew : Vertex → RiseFall → Corner → MinMax → ℚ)
    (arr : Vertex → RiseFall → Option ClockEdge → PathAnalysisPt → ℚ) : Sta :=
  { cmdNetwork := ⟨true⟩
    ensureGraph := ⟨pv⟩
    dbToSta := id
    corners := corners
    pathAnalysisPts := aps
    vertexSlew := slew
    vertexArrival := arr
    sdcDefaultArrivalClock := 0
    sdcFindClocksMatching := fun _ _ _ => clks }

/-- One sink vertex, one analysis point, no named clock; every arrival is `-5`. -/
def negativeArrivalSta : Sta :=
  demoSta (fun _ => (some 0, none)) [0] [0] [] (fun _ _ _ _ => 0) (fun _ _ _ _ => -5)

/-- A pin with both vertex slots null. -/
def noVertexSta : Sta :=
  demoSta (fun _ => (none, none)) [0] [0] [] (fun _ _ _ _ => 0) (fun _ _ _ _ => 0)

/-- One sink vertex, one named clock; every arrival is the sentinel `2^40`. -/
def allSentinelSta : Sta :=
  demoSta (fun _ => (some 0, none)) [0] [0] [1] (fun _ _ _ _ => 0)
    (fun _ _ _ _ => 1099511627776)

/-- One sink vertex, one corner; every slew is the sentinel `2^40`. -/
def sentinelSlewSta : Sta :=
  demoSta (fun _ => (some 0, none)) [0] [0] [] (fun _ _ _ _ => 1099511627776)
    (fun _ _ _ _ => 0)

/-- One sink vertex, two corners; the rise slew at max-delay mode is `0.12`
at corner 0 and `0.18` at corner 1, every other slew is `5`. -/
def twoCornerSta : Sta :=
  demoSta (fun _ => (some 0, none)) [0, 1] [0] []
    (fun _ rf c mm =>
      if rf = RiseFall.rise ∧ mm = MinMax.max then (if c = 0 then 0.12 else 0.18) else 5)
    (fun _ _ _ _ => 0)

/-- Sink and driver vertex, one analysis point, no named clock; the arrival
is `-3` relative to no clock edge and `-2` relative to a clock edge. -/
def zeroClockSta : Sta :=
  demoSta (fun _ => (some 0, some 1)) [0] [0] [] (fun _ _ _ _ => 0)
    (fun _ _ ce _ =>
      match ce with
      | none => -3
      | some _ => -2)

/-- A pin with sink vertex 0 and a null driver slot, one named clock; slews
and arrivals of vertex 0 are `0.12` and `-0.5`, those of any other vertex `99`. -/
def sinkOnlySta : Sta :=
  demoSta (fun _ => (some 0, none)) [0] [0] [1]
    (fun v _ _ _ => if v = 0 then 0.12 else 99)
    (fun v _ _ _ => if v = 0 then -0.5 else 99)

/-- One sink vertex, four analysis points with arrivals `-1e11`, `0.35`,
`1e12`, `0.50`, no named clock. -/
def mixedArrivalSta : Sta :=
  demoSta (fun _ => (some 0, none)) [0] [0, 1, 2, 3] [] (fun _ _ _ _ => 0)
    (fun _ _ _ ap =>
      if ap = 0 then -1e11 else if ap = 1 then 0.35 else if ap = 2 then 1e12 else 0.50)

/-- One sink vertex, no named clock; every arrival is the sentinel `2^40`. -/
def zeroClockSentinelSta : Sta :=
  demoSta (fun _ => (some 0, none)) [0] [0] [] (fun _ _ _ _ => 0)
    (fun _ _ _ _ => 1099511627776)

/-- Sink and driver vertex, one analysis point, no named clock; the arrival
is `0.2` relative to no clock edge and `0.35` relative to a clock edge. -/
def zeroClockTimedSta : Sta :=
  demoSta (fun _ => (some 0, some 1)) [0] [0] [] (fun _ _ _ _ => 0)
    (fun _ _ ce _ =>
      match ce with
      | none => 0.2
      | some _ => 0.35)

/-- An engine state whose command network is not linked. -/
def unlinkedSta : Sta :=
  { demoSta (fun _ => (some 0, none)) [0] [0] [] (fun _ _ _ _ => 0) (fun _ _ _ _ => 0) with
    cmdNetwork := ⟨false⟩ }

/-! ## Lemmas on max-reductions -/

theorem stdMax_eq_max (a b : ℚ) : stdMax a b = max a b := by
  unfold stdMax
  split_ifs with h
  · exact (max_eq_right h.le).symm
  · exact (max_eq_left (not_lt.mp h)).symm

theorem foldl_max_comm (a b : ℚ) (l : List ℚ) :
    l.foldl max (max a b) = max a (l.foldl max b) := by
  induction l generalizing b with
  | nil => rfl
  | cons x xs ih => simp only [List.foldl_cons, max_assoc, ih]

theorem le_foldl_max (a : ℚ) (l : List ℚ) : a ≤ l.foldl max a := by
  induction l generalizing a with
  | nil => exact le_rfl
  | cons x xs ih => exact le_trans (le_max_left a x) (ih (max a x))

theorem le_foldl_max_of_mem {x : ℚ} {l : List ℚ} (a : ℚ) (hx : x ∈ l) :
    x ≤ l.foldl max a := by
  induction l generalizing a with
  | nil => cases hx
  | cons y ys ih =>
    rcases List.mem_cons.mp hx with rfl | h
    · exact le_trans (le_max_right a x) (le_foldl_max _ ys)
    · exact ih _ h

theorem foldl_max_eq_or_mem (a : ℚ) (l : List ℚ) :
    l.foldl max a = a ∨ l.foldl max a ∈ l := by
  induction l generalizing a with
  | nil => exact Or.inl rfl
  | cons y ys ih =>
    rw [List.foldl_cons]
    rcases ih (max a y) with h | h
    · rcases max_choice a y with h2 | h2
      · left; rw [h, h2]
      · right; rw [h, h2]; exact List.mem_cons_self _ _
    · right; exact List.mem_cons_of_mem _ h

theorem foldl_max_le {a c : ℚ} {l : List ℚ} (ha : a ≤ c) (hl : ∀ x ∈ l, x ≤ c) :
    l.foldl max a ≤ c := by
  rcases foldl_max_eq_or_mem a l with h | h
  · rw [h]; exact ha
  · exact hl _ h

/-- A max-reduction over groups, each reduced from a seed `b` that does not
exceed the running value, is the max-reduction over all the values. -/
theorem foldl_max_groups {a b : ℚ} (h : b ≤ a) (gs : List (List ℚ)) :
    gs.foldl (fun d g => max d (g.foldl max b)) a = gs.flatten.foldl max a := by
  induction gs generalizing a with
  | nil => rfl
  | cons g gs ih =>
    have step : max a (g.foldl max b) = g.foldl max a := by
      rw [← foldl_max_comm, max_eq_left h]
    simp only [List.foldl_cons, List.flatten_cons, List.foldl_append, step]
    exact ih (le_trans h (le_foldl_max a g))

theorem foldl_filter_sentinel (a : ℚ) (l : List ℚ) :
    l.foldl (fun delay delay_time =>
        if !isTimeInf delay_time then stdMax delay delay_time else delay) a
      = (nonSentinel l).foldl max a := by
  induction l generalizing a with
  | nil => rfl
  | cons x xs ih =>
    unfold nonSentinel at ih ⊢
    cases hx : isTimeInf x
    · simp only [List.foldl_cons, hx, Bool.not_false, if_true, List.filter_cons]
      rw [stdMax_eq_max]
      exact ih _
    · simp only [List.foldl_cons, hx, Bool.not_true, List.filter_cons]
      exact ih _

theorem maxOr_mem {d : ℚ} {l : List ℚ} (h : l ≠ []) : maxOr d l ∈ l := by
  cases l with
  | nil => exact absurd rfl h
  | cons x xs =>
    rcases foldl_max_eq_or_mem x xs with h1 | h1
    · simp only [maxOr, h1, List.mem_cons, true_or]
    · exact List.mem_cons_of_mem _ h1

theorem le_maxOr_of_mem {d x : ℚ} {l : List ℚ} (h : x ∈ l) : x ≤ maxOr d l := by
  cases l with
  | nil => cases h
  | cons y ys =>
    rcases List.mem_cons.mp h with rfl | h1
    · exact le_foldl_max _ _
    · exact le_foldl_max_of_mem _ h1

theorem foldl_max_eq_max_maxOr (a d : ℚ) {l : List ℚ} (h : l ≠ []) :
    l.foldl max a = max a (maxOr d l) := by
  cases l with
  | nil => exact absurd rfl h
  | cons x xs => simp only [List.foldl_cons, maxOr, foldl_max_comm]

/-! ## What the queries compute -/

theorem aoh_polarity (rf : String) :
    (if (if rf = "rise" then "arrive" else "hold") = "arrive" then RiseFall.rise
      else RiseFall.fall) = signalPolarity rf := by
  unfold signalPolarity
  by_cases h : rf = "rise"
  · simp [h]
  · simp [h]

/-- The valid arrivals of one vertex relative to one clock-edge candidate. -/
theorem getPinArrivalTime_eq (INF : ℚ) (st : Sta) (clk : Option Clock)
    (clk_rf : RiseFall) (v : Vertex) (rf : String) :
    getPinArrivalTime INF st clk clk_rf v (if rf = "rise" then "arrive" else "hold")
      = (nonSentinel (st.pathAnalysisPts.map fun ap =>
          st.vertexArrival v (signalPolarity rf)
            (clk.map fun c => ClockEdge.mk c clk_rf) ap)).foldl max (-INF) := by
  unfold getPinArrivalTime arrivalsClk
  simp only [aoh_polarity]
  rw [foldl_filter_sentinel]
  cases clk <;> rfl

theorem foldl_pair_flatMap {α β : Type} (f : β → α → β) (g1 g2 : Clock → α)
    (clks : List Clock) (a : β) :
    clks.foldl (fun d c => f (f d (g1 c)) (g2 c)) a
      = (clks.flatMap fun c => [g1 c, g2 c]).foldl f a := by
  induction clks generalizing a with
  | nil => rfl
  | cons c cs ih =>
    simp only [List.foldl_cons, List.flatMap_cons, List.foldl_append, List.foldl_nil]
    exact ih _

theorem vertices_linked (st : Sta) (pin : Pin) (h : st.cmdNetwork.isLinked = true) :
    vertices st pin = Except.ok (st.ensureGraph.pinVertices pin) := by
  simp [vertices, cmdGraph, cmdLinkedNetwork, h, bind, Except.bind, pure, Except.pure]

theorem findClocksMatching_linked (st : Sta) (pattern : String) (regexp nocase : Bool)
    (h : st.cmdNetwork.isLinked = true) :
    findClocksMatching st pattern regexp nocase
      = Except.ok (st.sdcFindClocksMatching pattern regexp nocase) := by
  simp [findClocksMatching, cmdLinkedNetwork, h, bind, Except.bind, pure, Except.pure]

theorem slew_corner_eq (INF : ℚ) (st : Sta) (v : Vertex) :
    slew_corner INF st v
      = (st.corners.map fun c => st.vertexSlew v RiseFall.rise c MinMax.max).foldl max
          (-INF) := by
  unfold slew_corner getCorners
  rw [List.foldl_map]
  congr 1
  funext a c
  exact stdMax_eq_max _ _

/-- The slew loop over the vertex slots, from any running value `a` that is
at least the seed `-INF` of `slew_corner`. -/
theorem slew_loop_eq (INF : ℚ) (st : Sta) (slots : List (Option Vertex)) (a : ℚ)
    (ha : -INF ≤ a) :
    slots.foldl
        (fun pinSlew vertex =>
          match vertex with
          | some v => stdMax pinSlew (slew_corner INF st v)
          | none => pinSlew) a
      = (slewsOver st (slots.flatMap Option.toList)).foldl max a := by
  induction slots generalizing a with
  | nil => rfl
  | cons s ss ih =>
    cases s with
    | none => simpa using ih a ha
    | some v =>
      have step : stdMax a (slew_corner INF st v)
          = (st.corners.map fun c => st.vertexSlew v RiseFall.rise c MinMax.max).foldl
              max a := by
        rw [stdMax_eq_max, slew_corner_eq, ← foldl_max_comm, max_eq_left ha]
      simp only [List.foldl_cons, List.flatMap_cons, Option.toList, List.singleton_append,
        slewsOver, List.foldl_append, step]
      exact ih _ (le_trans ha (le_foldl_max _ _))

theorem getPinSlew_eq (INF : ℚ) (st : Sta) (db_pin : ITerm)
    (h : st.cmdNetwork.isLinked = true) :
    getPinSlew INF st db_pin
      = Except.ok ((fetchedSlews st (st.dbToSta db_pin)).foldl max (-INF)) := by
  unfold getPinSlew
  simp only [vertices_linked st _ h, bind, Except.bind, pure, Except.pure]
  rw [slew_loop_eq INF st _ _ le_rfl]
  simp [fetchedSlews, presentVertices]

theorem nonSentinel_arrivalsOver_cons (st : Sta) (pol : RiseFall)
    (ces : List (Option ClockEdge)) (v : Vertex) (vs : List Vertex) :
    nonSentinel (arrivalsOver st pol ces (v :: vs))
      = (ces.map (validAt st pol v)).flatten
          ++ nonSentinel (arrivalsOver st pol ces vs) := by
  unfold nonSentinel arrivalsOver validAt nonSentinel
  rw [List.flatMap_cons, List.filter_append, List.filter_flatMap]
  congr 1

/-- One pass of the body of the vertex loop of `getPinArrival`, from a running
value `a` that is at least the seed `-INF` of `getPinArrivalTime`. -/
theorem arrival_vertex_eq (INF : ℚ) (st : Sta) (rf : String) (v : Vertex)
    (clks : List Clock) (a : ℚ) (ha : -INF ≤ a) :
    clks.foldl
        (fun delay clk =>
          stdMax
            (stdMax delay
              (getPinArrivalTime INF st (some clk) RiseFall.rise v
                (if rf = "rise" then "arrive" else "hold")))
            (getPinArrivalTime INF st (some clk) RiseFall.fall v
              (if rf = "rise" then "arrive" else "hold")))
        (stdMax
          (stdMax a
            (getPinArrivalTime INF st none RiseFall.rise v
              (if rf = "rise" then "arrive" else "hold")))
          (getPinArrivalTime INF st (some (defaultArrivalClock st)) RiseFall.rise v
            (if rf = "rise" then "arrive" else "hold")))
      = ((clockEdgeCandidates st.sdcDefaultArrivalClock clks).map
            (validAt st (signalPolarity rf) v)).flatten.foldl max a := by
  rw [← foldl_max_groups ha, List.foldl_map]
  simp only [stdMax_eq_max, getPinArrivalTime_eq, Option.map_some', Option.map_none',
    defaultArrivalClock]
  unfold clockEdgeCandidates
  simp only [List.foldl_cons]
  rw [← foldl_pair_flatMap
    (fun d ce => max d ((validAt st (signalPolarity rf) v ce).foldl max (-INF)))
    (fun c => some (ClockEdge.mk c RiseFall.rise))
    (fun c => some (ClockEdge.mk c RiseFall.fall))]
  rfl

/-- A monadic loop over the vertex slots whose body skips a null slot and
succeeds with `g d v` on a present vertex `v` is the pure loop over the
present vertices. -/
theorem foldlM_slots (f : ℚ → Option Vertex → Except LogError ℚ) (g : ℚ → Vertex → ℚ)
    (hnone : ∀ d, f d none = Except.ok d) (hsome : ∀ d v, f d (some v) = Except.ok (g d v))
    (slots : List (Option Vertex)) (a : ℚ) :
    slots.foldlM f a = Except.ok ((slots.flatMap Option.toList).foldl g a) := by
  induction slots generalizing a with
  | nil => rfl
  | cons s ss ih =>
    rw [List.foldlM_cons]
    cases s with
    | none =>
      rw [hnone]
      exact ih a
    | some v =>
      rw [hsome]
      exact ih (g a v)

/-- The pure vertex loop of `getPinArrival`, from a running value `a` that is
at least the seed `-INF` of `getPinArrivalTime`. -/
theorem arrival_vertices_eq (INF : ℚ) (st : Sta) (rf : String) (clks : List Clock)
    (vs : List Vertex) (a : ℚ) (ha : -INF ≤ a) :
    vs.foldl
        (fun delay v =>
          clks.foldl
            (fun delay clk =>
              stdMax
                (stdMax delay
                  (getPinArrivalTime INF st (some clk) RiseFall.rise v
                    (if rf = "rise" then "arrive" else "hold")))
                (getPinArrivalTime INF st (some clk) RiseFall.fall v
                  (if rf = "rise" then "arrive" else "hold")))
            (stdMax
              (stdMax delay
                (getPinArrivalTime INF st none RiseFall.rise v
                  (if rf = "rise" then "arrive" else "hold")))
              (getPinArrivalTime INF st (some (defaultArrivalClock st)) RiseFall.rise v
                (if rf = "rise" then "arrive" else "hold"))))
        a
      = (nonSentinel (arrivalsOver st (signalPolarity rf)
          (clockEdgeCandidates st.sdcDefaultArrivalClock clks) vs)).foldl max a := by
  induction vs generalizing a with
  | nil => rfl
  | cons v vs ih =>
    rw [List.foldl_cons, arrival_vertex_eq INF st rf v clks a ha,
      nonSentinel_arrivalsOver_cons, List.foldl_append]
    exact ih _ (le_trans ha (le_foldl_max _ _))

/-- On a linked network `getPinArrival` is the max-reduction, seeded with
`-1`, of the valid arrivals, provided `sta::INF` is at least 1. -/
theorem getPinArrival_eq (INF : ℚ) (st : Sta) (db_pin : ITerm) (rf : String)
    (hINF : 1 ≤ INF) (h : st.cmdNetwork.isLinked = true) :
    getPinArrival INF st db_pin rf
      = Except.ok
          ((validArrivals st (st.dbToSta db_pin) (signalPolarity rf)).foldl max (-1)) := by
  simp only [getPinArrival, vertices_linked st _ h]
  have hloop := foldlM_slots
    (fun delay vertex =>
      match vertex with
      | some v => do
        let arrival_or_hold := if rf = "rise" then "arrive" else "hold"
        let delay := stdMax delay
          (getPinArrivalTime INF st none RiseFall.rise v arrival_or_hold)
        let delay := stdMax delay
          (getPinArrivalTime INF st (some (defaultArrivalClock st)) RiseFall.rise v
            arrival_or_hold)
        let clks ← findClocksMatching st "*" false false
        pure <| clks.foldl
          (fun delay clk =>
            stdMax
              (stdMax delay
                (getPinArrivalTime INF st (some clk) RiseFall.rise v arrival_or_hold))
              (getPinArrivalTime INF st (some clk) RiseFall.fall v arrival_or_hold))
          delay
      | none => pure delay)
    (fun delay v =>
      (st.sdcFindClocksMatching "*" false false).foldl
        (fun delay clk =>
          stdMax
            (stdMax delay
              (getPinArrivalTime INF st (some clk) RiseFall.rise v
                (if rf = "rise" then "arrive" else "hold")))
            (getPinArrivalTime INF st (some clk) RiseFall.fall v
              (if rf = "rise" then "arrive" else "hold")))
        (stdMax
          (stdMax delay
            (getPinArrivalTime INF st none RiseFall.rise v
              (if rf = "rise" then "arrive" else "hold")))
          (getPinArrivalTime INF st (some (defaultArrivalClock st)) RiseFall.rise v
            (if rf = "rise" then "arrive" else "hold"))))
    (fun d => rfl)
    (fun d v => by
      simp only [findClocksMatching_linked st _ _ _ h, bind, Except.bind, pure,
        Except.pure])
    [(st.ensureGraph.pinVertices (st.dbToSta db_pin)).1,
      (st.ensureGraph.pinVertices (st.dbToSta db_pin)).2] (-1)
  have hv : [(st.ensureGraph.pinVertices (st.dbToSta db_pin)).1,
      (st.ensureGraph.pinVertices (st.dbToSta db_pin)).2].flatMap Option.toList
      = presentVertices (st.ensureGraph.pinVertices (st.dbToSta db_pin)) := by
    simp [presentVertices]
  rw [hv, arrival_vertices_eq INF st rf _ _ (-1) (by linarith)] at hloop
  exact hloop

/-! ## Independence from values the queries do not fetch -/

theorem slew_corner_congr (INF : ℚ) (st : Sta)
    (vs' : Vertex → RiseFall → Corner → MinMax → ℚ)
    (va' : Vertex → RiseFall → Option ClockEdge → PathAnalysisPt → ℚ) (v : Vertex)
    (h : ∀ c, vs' v RiseFall.rise c MinMax.max = st.vertexSlew v RiseFall.rise c MinMax.max) :
    slew_corner INF { st with vertexSlew := vs', vertexArrival := va' } v
      = slew_corner INF st v := by
  unfold slew_corner getCorners
  simp only [h]

theorem getPinArrivalTime_congr (INF : ℚ) (st : Sta)
    (vs' : Vertex → RiseFall → Corner → MinMax → ℚ)
    (va' : Vertex → RiseFall → Option ClockEdge → PathAnalysisPt → ℚ)
    (clk : Option Clock) (clk_rf : RiseFall) (v : Vertex) (rf : String)
    (h : ∀ ce ap, va' v (signalPolarity rf) ce ap
      = st.vertexArrival v (signalPolarity rf) ce ap) :
    getPinArrivalTime INF { st with vertexSlew := vs', vertexArrival := va' } clk clk_rf v
        (if rf = "rise" then "arrive" else "hold")
      = getPinArrivalTime INF st clk clk_rf v (if rf = "rise" then "arrive" else "hold") := by
  unfold getPinArrivalTime arrivalsClk
  simp only [aoh_polarity, h]

theorem getPinArrival_congr (INF : ℚ) (st : Sta)
    (vs' : Vertex → RiseFall → Corner → MinMax → ℚ)
    (va' : Vertex → RiseFall → Option ClockEdge → PathAnalysisPt → ℚ)
    (db_pin : ITerm) (rf : String)
    (h : ∀ v ce ap, va' v (signalPolarity rf) ce ap
      = st.vertexArrival v (signalPolarity rf) ce ap) :
    getPinArrival INF { st with vertexSlew := vs', vertexArrival := va' } db_pin rf
      = getPinArrival INF st db_pin rf := by
  unfold getPinArrival
  simp only [getPinArrivalTime_congr INF st vs' va' _ _ _ rf (h _)]
  rfl

theorem getPinSlew_congr (INF : ℚ) (st : Sta)
    (vs' : Vertex → RiseFall → Corner → MinMax → ℚ)
    (va' : Vertex → RiseFall → Option ClockEdge → PathAnalysisPt → ℚ)
    (db_pin : ITerm)
    (h : ∀ v c, vs' v RiseFall.rise c MinMax.max
      = st.vertexSlew v RiseFall.rise c MinMax.max) :
    getPinSlew INF { st with vertexSlew := vs', vertexArrival := va' } db_pin
      = getPinSlew INF st db_pin := by
  unfold getPinSlew
  simp only [slew_corner_congr INF st vs' va' _ (h _)]
  rfl

theorem nonSentinel_le {x : ℚ} {l : List ℚ} (h : x ∈ nonSentinel l) : x ≤ 1e10 := by
  unfold nonSentinel at h
  have hx := (List.mem_filter.mp h).2
  simp only [isTimeInf, Bool.not_eq_true', Bool.or_eq_false_iff, decide_eq_false_iff_not,
    not_lt, gt_iff_lt] at hx
  exact hx.1

/-! ## Properties of the queries -/

/-- C9: the sentinel test is symmetric and strict.  For every time value `t`,
`isTimeInf t` holds exactly when `|t| > 1e10`; negating `t` does not change
the answer; the boundary values `1e10` and `-1e10` are not sentinels. -/
theorem isTimeInf_iff_abs (t : ℚ) :
    (isTimeInf t = true ↔ |t| > 1e10) ∧ isTimeInf (-t) = isTimeInf t
      ∧ isTimeInf 1e10 = false ∧ isTimeInf (-1e10) = false := by
  have key : ∀ x : ℚ, (isTimeInf x = true ↔ |x| > 1e10) := by
    intro x
    simp only [isTimeInf, Bool.or_eq_true, decide_eq_true_eq, gt_iff_lt, lt_abs]
    constructor
    · rintro (h | h)
      · exact Or.inl h
      · exact Or.inr (by linarith)
    · rintro (h | h)
      · exact Or.inl h
      · exact Or.inr (by linarith)
  refine ⟨key t, ?_, ?_, ?_⟩
  · rw [Bool.eq_iff_iff, key, key, abs_neg]
  · norm_num [isTimeInf]
  · norm_num [isTimeInf]

/-- C5: when the command network is not linked, `vertices`, `getPinSlew` and
`getPinArrival` all fail with the report ORD 104 "STA network is not linked."
raised in `cmdLinkedNetwork`, so none of them yields a number; when the
network is linked, `cmdLinkedNetwork` returns that network. -/
theorem unlinked_network_fails (INF : ℚ) (st : Sta) (pin : Pin) (db_pin : ITerm)
    (rf : String) :
    (st.cmdNetwork.isLinked = false →
      cmdLinkedNetwork st = Except.error ⟨"ORD", 104, "STA network is not linked."⟩
      ∧ vertices st pin = Except.error ⟨"ORD", 104, "STA network is not linked."⟩
      ∧ getPinSlew INF st db_pin
          = Except.error ⟨"ORD", 104, "STA network is not linked."⟩
      ∧ getPinArrival INF st db_pin rf
          = Except.error ⟨"ORD", 104, "STA network is not linked."⟩
      ∧ (∀ r : ℚ, getPinSlew INF st db_pin ≠ Except.ok r)
      ∧ (∀ r : ℚ, getPinArrival INF st db_pin rf ≠ Except.ok r))
    ∧ (st.cmdNetwork.isLinked = true → cmdLinkedNetwork st = Except.ok st.cmdNetwork) := by
  constructor
  · intro h
    have hv : ∀ p, vertices st p
        = Except.error ⟨"ORD", 104, "STA network is not linked."⟩ := by
      intro p
      simp [vertices, cmdGraph, cmdLinkedNetwork, loggerError, h, bind, Except.bind]
    have hs : getPinSlew INF st db_pin
        = Except.error ⟨"ORD", 104, "STA network is not linked."⟩ := by
      simp [getPinSlew, hv, bind, Except.bind]
    have ha : getPinArrival INF st db_pin rf
        = Except.error ⟨"ORD", 104, "STA network is not linked."⟩ := by
      simp [getPinArrival, hv, bind, Except.bind]
    refine ⟨?_, hv pin, hs, ha, ?_, ?_⟩
    · simp [cmdLinkedNetwork, loggerError, h]
    · intro r hr
      rw [hs] at hr
      cases hr
    · intro r hr
      rw [ha] at hr
      cases hr
  · intro h
    simp [cmdLinkedNetwork, h]

/-- C8: `getPinArrival(pin, "rise")` reads arrivals of rise signal polarity
only and `getPinArrival(pin, "fall")` arrivals of fall signal polarity only,
whatever vertex, clock-edge candidate (rise or fall edge of a clock included)
and analysis point: changing the arrival table anywhere at the other signal
polarity leaves the result unchanged, and on a linked network the result is
the reduction of the arrivals of the requested polarity over all candidates. -/
theorem getPinArrival_signal_polarity (INF : ℚ) (st : Sta) (db_pin : ITerm)
    (va' : Vertex → RiseFall → Option ClockEdge → PathAnalysisPt → ℚ) :
    ((∀ v ce ap, va' v RiseFall.rise ce ap = st.vertexArrival v RiseFall.rise ce ap) →
      getPinArrival INF { st with vertexArrival := va' } db_pin "rise"
        = getPinArrival INF st db_pin "rise")
    ∧ ((∀ v ce ap, va' v RiseFall.fall ce ap = st.vertexArrival v RiseFall.fall ce ap) →
      getPinArrival INF { st with vertexArrival := va' } db_pin "fall"
        = getPinArrival INF st db_pin "fall")
    ∧ (∀ clk clk_rf v,
        getPinArrivalTime INF st clk clk_rf v "arrive"
          = (nonSentinel (st.pathAnalysisPts.map fun ap =>
              st.vertexArrival v RiseFall.rise (clk.map fun c => ClockEdge.mk c clk_rf)
                ap)).foldl max (-INF)
        ∧ getPinArrivalTime INF st clk clk_rf v "hold"
          = (nonSentinel (st.pathAnalysisPts.map fun ap =>
              st.vertexArrival v RiseFall.fall (clk.map fun c => ClockEdge.mk c clk_rf)
                ap)).foldl max (-INF))
    ∧ (1 ≤ INF → st.cmdNetwork.isLinked = true →
        getPinArrival INF st db_pin "rise"
          = Except.ok
              ((validArrivals st (st.dbToSta db_pin) RiseFall.rise).foldl max (-1))
        ∧ getPinArrival INF st db_pin "fall"
          = Except.ok
              ((validArrivals st (st.dbToSta db_pin) RiseFall.fall).foldl max (-1))) := by
  have hr : signalPolarity "rise" = RiseFall.rise := by simp [signalPolarity]
  have hf : signalPolarity "fall" = RiseFall.fall := by simp [signalPolarity]
  refine ⟨?_, ?_, ?_, ?_⟩
  · intro h
    exact getPinArrival_congr INF st st.vertexSlew va' db_pin "rise" (by rw [hr]; exact h)
  · intro h
    exact getPinArrival_congr INF st st.vertexSlew va' db_pin "fall" (by rw [hf]; exact h)
  · intro clk clk_rf v
    have h1 := getPinArrivalTime_eq INF st clk clk_rf v "rise"
    have h2 := getPinArrivalTime_eq INF st clk clk_rf v "fall"
    rw [hr] at h1
    rw [hf] at h2
    exact ⟨by simpa using h1, by simpa using h2⟩
  · intro hINF h
    have h1 := getPinArrival_eq INF st db_pin "rise" hINF h
    have h2 := getPinArrival_eq INF st db_pin "fall" hINF h
    rw [hr] at h1
    rw [hf] at h2
    exact ⟨h1, h2⟩

/-- C4: on a linked network `getPinSlew` returns the maximum, over every
present vertex of the pin and every corner, of the rise slew at max-delay
mode, reduced from `-sta::INF`: the result bounds every such slew, it is one
of them as soon as one of them is at least `-sta::INF`, and it is `-sta::INF`
when the pin has no present vertex or there is no corner.  No other slew
(fall edge, min mode) is sampled: changing those leaves the result unchanged. -/
theorem getPinSlew_worst_rise_max (INF : ℚ) (st : Sta) (db_pin : ITerm)
    (h : st.cmdNetwork.isLinked = true) :
    ∃ r, getPinSlew INF st db_pin = Except.ok r
      ∧ r = (fetchedSlews st (st.dbToSta db_pin)).foldl max (-INF)
      ∧ (∀ s ∈ fetchedSlews st (st.dbToSta db_pin), s ≤ r)
      ∧ ((∃ s ∈ fetchedSlews st (st.dbToSta db_pin), -INF ≤ s) →
          r ∈ fetchedSlews st (st.dbToSta db_pin))
      ∧ ((presentVertices (st.ensureGraph.pinVertices (st.dbToSta db_pin)) = []
            ∨ st.corners = []) → r = -INF)
      ∧ (∀ vs' : Vertex → RiseFall → Corner → MinMax → ℚ,
          (∀ v c, vs' v RiseFall.rise c MinMax.max
            = st.vertexSlew v RiseFall.rise c MinMax.max) →
          getPinSlew INF { st with vertexSlew := vs' } db_pin = Except.ok r) := by
  refine ⟨_, getPinSlew_eq INF st db_pin h, rfl, ?_, ?_, ?_, ?_⟩
  · intro s hs
    exact le_foldl_max_of_mem _ hs
  · rintro ⟨s, hs, hle⟩
    rcases foldl_max_eq_or_mem (-INF) (fetchedSlews st (st.dbToSta db_pin)) with h1 | h1
    · have h2 : s ≤ -INF := by
        rw [← h1]
        exact le_foldl_max_of_mem _ hs
      have h3 : s = -INF := le_antisymm h2 hle
      rw [h1, ← h3]
      exact hs
    · exact h1
  · intro hempty
    have hnil : fetchedSlews st (st.dbToSta db_pin) = [] := by
      unfold fetchedSlews slewsOver
      rcases hempty with h1 | h1
      · rw [h1]
        rfl
      · rw [h1]
        simp
    rw [hnil]
    rfl
  · intro vs' hvs
    rw [← getPinSlew_eq INF st db_pin h]
    exact getPinSlew_congr INF st vs' st.vertexArrival db_pin hvs

/-- C4 at a concrete input: one sink vertex, two corners with rise/max slews
`0.12` and `0.18` (all fall-edge and min-mode slews being `5`) give `0.18`. -/
theorem getPinSlew_worst_rise_max_witness :
    twoCornerSta.cmdNetwork.isLinked = true
      ∧ fetchedSlews twoCornerSta 0 = [0.12, 0.18]
      ∧ getPinSlew 1e30 twoCornerSta 0 = Except.ok 0.18 := by
  obtain ⟨r, hr, hval, -⟩ := getPinSlew_worst_rise_max 1e30 twoCornerSta 0 rfl
  have hf : fetchedSlews twoCornerSta 0 = [0.12, 0.18] := by
    norm_num [fetchedSlews, slewsOver, presentVertices, twoCornerSta, demoSta]
  refine ⟨rfl, hf, ?_⟩
  rw [hr, hval]
  have hd : twoCornerSta.dbToSta 0 = 0 := rfl
  rw [hd, hf]
  norm_num

/-- C3 fails at a concrete input: one sink vertex and one corner whose slew is
the sentinel `2^40`; every fetched slew is a sentinel, yet `getPinSlew`
returns `2^40` and not `-sta::INF` (here `1e30`). -/
theorem getPinSlew_sentinel_counterexample :
    sentinelSlewSta.cmdNetwork.isLinked = true
      ∧ fetchedSlews sentinelSlewSta 0 = [1099511627776]
      ∧ isTimeInf 1099511627776 = true
      ∧ getPinSlew 1e30 sentinelSlewSta 0 = Except.ok 1099511627776
      ∧ getPinSlew 1e30 sentinelSlewSta 0 ≠ Except.ok (-1e30) := by
  have hq : getPinSlew 1e30 sentinelSlewSta 0 = Except.ok 1099511627776 := by
    norm_num [getPinSlew, vertices, cmdGraph, cmdLinkedNetwork, slew_corner, getCorners,
      stdMax, sentinelSlewSta, demoSta, bind, Except.bind, pure, Except.pure]
  refine ⟨rfl, ?_, ?_, hq, ?_⟩
  · norm_num [fetchedSlews, slewsOver, presentVertices, sentinelSlewSta, demoSta]
  · norm_num [isTimeInf]
  · rw [hq]
    intro hc
    injection hc with hc
    norm_num at hc

/-- C3 as amended: `getPinSlew` applies no sentinel filter.  On a linked
network every fetched slew, of magnitude above `1e10` or not, is bounded by
the result; when some fetched slew is at least `-sta::INF` the result is a
fetched slew, a sentinel if that is the largest; and the result is
`-sta::INF` exactly when no fetched slew exceeds `-sta::INF`. -/
theorem getPinSlew_unfiltered (INF : ℚ) (st : Sta) (db_pin : ITerm)
    (h : st.cmdNetwork.isLinked = true) :
    ∃ r, getPinSlew INF st db_pin = Except.ok r
      ∧ (∀ s ∈ fetchedSlews st (st.dbToSta db_pin), isTimeInf s = true → s ≤ r)
      ∧ (∀ s ∈ fetchedSlews st (st.dbToSta db_pin), isTimeInf s = false → s ≤ r)
      ∧ ((∃ s ∈ fetchedSlews st (st.dbToSta db_pin), -INF ≤ s) →
          r ∈ fetchedSlews st (st.dbToSta db_pin))
      ∧ (r = -INF ↔ ∀ s ∈ fetchedSlews st (st.dbToSta db_pin), s ≤ -INF) := by
  refine ⟨_, getPinSlew_eq INF st db_pin h, ?_, ?_, ?_, ?_⟩
  · intro s hs _
    exact le_foldl_max_of_mem _ hs
  · intro s hs _
    exact le_foldl_max_of_mem _ hs
  · rintro ⟨s, hs, hle⟩
    rcases foldl_max_eq_or_mem (-INF) (fetchedSlews st (st.dbToSta db_pin)) with h1 | h1
    · have h2 : s ≤ -INF := by
        rw [← h1]
        exact le_foldl_max_of_mem _ hs
      have h3 : s = -INF := le_antisymm h2 hle
      rw [h1, ← h3]
      exact hs
    · exact h1
  · constructor
    · intro hr s hs
      rw [← hr]
      exact le_foldl_max_of_mem _ hs
    · intro hall
      exact le_antisymm (foldl_max_le le_rfl hall) (le_foldl_max _ _)

/-- C3 as amended, at a concrete input: with the single slew `2^40` the
query returns that sentinel. -/
theorem getPinSlew_unfiltered_witness :
    sentinelSlewSta.cmdNetwork.isLinked = true
      ∧ ∃ r, getPinSlew 1e30 sentinelSlewSta 0 = Except.ok r ∧ (1099511627776 : ℚ) ≤ r := by
  obtain ⟨r, hr, hsent, -⟩ := getPinSlew_unfiltered 1e30 sentinelSlewSta 0 rfl
  refine ⟨rfl, r, hr, hsent _ ?_ ?_⟩
  · norm_num [fetchedSlews, slewsOver, presentVertices, sentinelSlewSta, demoSta]
  · norm_num [isTimeInf]

/-- C7: for a pin whose vertex pair is (sink, null), on a linked network
(with `sta::INF` at least 1), `getPinSlew` and `getPinArrival` return exactly
the reduction over the sink vertex alone, the null slot contributing no value;
and both results depend on the slew and arrival tables at the sink vertex
only, so nothing is fetched for any other vertex. -/
theorem sink_only_pin (INF : ℚ) (st : Sta) (db_pin : ITerm) (rf : String) (s : Vertex)
    (hINF : 1 ≤ INF) (h : st.cmdNetwork.isLinked = true)
    (hv : st.ensureGraph.pinVertices (st.dbToSta db_pin) = (some s, none)) :
    getPinSlew INF st db_pin = Except.ok (slew_corner INF st s)
      ∧ getPinSlew INF st db_pin = Except.ok ((slewsOver st [s]).foldl max (-INF))
      ∧ getPinArrival INF st db_pin rf
          = Except.ok
              ((nonSentinel (arrivalsOver st (signalPolarity rf)
                (clockEdgeCandidates st.sdcDefaultArrivalClock
                  (st.sdcFindClocksMatching "*" false false)) [s])).foldl max (-1))
      ∧ (∀ (vs' : Vertex → RiseFall → Corner → MinMax → ℚ)
          (va' : Vertex → RiseFall → Option ClockEdge → PathAnalysisPt → ℚ),
          (∀ r c m, vs' s r c m = st.vertexSlew s r c m) →
          (∀ r ce ap, va' s r ce ap = st.vertexArrival s r ce ap) →
          getPinSlew INF { st with vertexSlew := vs', vertexArrival := va' } db_pin
              = getPinSlew INF st db_pin
            ∧ getPinArrival INF { st with vertexSlew := vs', vertexArrival := va' } db_pin rf
              = getPinArrival INF st db_pin rf) := by
  have hslew : ∀ st' : Sta, st'.cmdNetwork.isLinked = true →
      st'.ensureGraph.pinVertices (st'.dbToSta db_pin) = (some s, none) →
      getPinSlew INF st' db_pin = Except.ok ((slewsOver st' [s]).foldl max (-INF)) := by
    intro st' h' hv'
    rw [getPinSlew_eq INF st' db_pin h']
    unfold fetchedSlews
    rw [hv']
    rfl
  have harr : ∀ st' : Sta, st'.cmdNetwork.isLinked = true →
      st'.ensureGraph.pinVertices (st'.dbToSta db_pin) = (some s, none) →
      getPinArrival INF st' db_pin rf
        = Except.ok
            ((nonSentinel (arrivalsOver st' (signalPolarity rf)
              (clockEdgeCandidates st'.sdcDefaultArrivalClock
                (st'.sdcFindClocksMatching "*" false false)) [s])).foldl max (-1)) := by
    intro st' h' hv'
    rw [getPinArrival_eq INF st' db_pin rf hINF h']
    unfold validArrivals fetchedArrivals
    rw [hv']
    rfl
  refine ⟨?_, hslew st h hv, harr st h hv, ?_⟩
  · rw [hslew st h hv, slew_corner_eq]
    simp [slewsOver]
  · intro vs' va' hs ha
    constructor
    · rw [hslew st h hv, hslew { st with vertexSlew := vs', vertexArrival := va' } h hv]
      simp only [slewsOver, List.flatMap_cons, List.flatMap_nil, hs]
    · rw [harr st h hv, harr { st with vertexSlew := vs', vertexArrival := va' } h hv]
      simp only [arrivalsOver, List.flatMap_cons, List.flatMap_nil, ha]

/-- C7 at a concrete input: sink vertex 0 with slew `0.12` and arrival `-0.5`,
null driver slot; the queries return `0.12` and `-0.5` (not `0`). -/
theorem sink_only_pin_witness :
    sinkOnlySta.ensureGraph.pinVertices (sinkOnlySta.dbToSta 0) = (some 0, none)
      ∧ getPinSlew 1e30 sinkOnlySta 0 = Except.ok 0.12
      ∧ getPinArrival 1e30 sinkOnlySta 0 "rise" = Except.ok (-0.5) := by
  obtain ⟨-, h2, h3, -⟩ :=
    sink_only_pin 1e30 sinkOnlySta 0 "rise" 0 (by norm_num) rfl rfl
  refine ⟨rfl, ?_, ?_⟩
  · rw [h2]
    norm_num [slewsOver, sinkOnlySta, demoSta]
  · rw [h3]
    norm_num [arrivalsOver, clockEdgeCandidates, nonSentinel, isTimeInf, signalPolarity,
      sinkOnlySta, demoSta]

/-- C10: on a linked network (with `sta::INF` at least 1) `getPinArrival`
returns exactly `max (-1) M`, where `M` is the maximum of the non-sentinel
arrivals fetched over present vertices, clock-edge candidates and analysis
points, and `M = -sta::INF` when there is none; so the result is at least
`-1` and at most `1e10`, and a worst arrival below `-1` is reported as `-1`. -/
theorem getPinArrival_floor (INF : ℚ) (st : Sta) (db_pin : ITerm) (rf : String)
    (hINF : 1 ≤ INF) (h : st.cmdNetwork.isLinked = true) :
    ∃ r, getPinArrival INF st db_pin rf = Except.ok r
      ∧ r = max (-1)
          (maxOr (-INF) (validArrivals st (st.dbToSta db_pin) (signalPolarity rf)))
      ∧ (validArrivals st (st.dbToSta db_pin) (signalPolarity rf) ≠ [] →
          maxOr (-INF) (validArrivals st (st.dbToSta db_pin) (signalPolarity rf))
              ∈ validArrivals st (st.dbToSta db_pin) (signalPolarity rf)
            ∧ ∀ x ∈ validArrivals st (st.dbToSta db_pin) (signalPolarity rf),
                x ≤ maxOr (-INF)
                  (validArrivals st (st.dbToSta db_pin) (signalPolarity rf)))
      ∧ -1 ≤ r ∧ r ≤ 1e10
      ∧ (maxOr (-INF) (validArrivals st (st.dbToSta db_pin) (signalPolarity rf)) < -1 →
          r = -1) := by
  have hmax : (validArrivals st (st.dbToSta db_pin) (signalPolarity rf)).foldl max (-1)
      = max (-1)
          (maxOr (-INF) (validArrivals st (st.dbToSta db_pin) (signalPolarity rf))) := by
    by_cases hnil : validArrivals st (st.dbToSta db_pin) (signalPolarity rf) = []
    · rw [hnil]
      simp only [List.foldl_nil, maxOr]
      exact (max_eq_left (by linarith)).symm
    · exact foldl_max_eq_max_maxOr _ _ hnil
  refine ⟨_, getPinArrival_eq INF st db_pin rf hINF h, hmax, ?_, ?_, ?_, ?_⟩
  · intro hne
    exact ⟨maxOr_mem hne, fun x hx => le_maxOr_of_mem hx⟩
  · exact le_foldl_max _ _
  · refine foldl_max_le (by norm_num) ?_
    intro x hx
    exact nonSentinel_le hx
  · intro hlt
    rw [hmax]
    exact max_eq_left hlt.le

/-- C10 at a concrete input: arrivals `-1e11`, `0.35`, `1e12`, `0.50` at the
sink vertex give `0.50`. -/
theorem getPinArrival_floor_witness :
    mixedArrivalSta.cmdNetwork.isLinked = true
      ∧ getPinArrival 1e30 mixedArrivalSta 0 "rise" = Except.ok 0.50 := by
  obtain ⟨r, hr, hval, -⟩ :=
    getPinArrival_floor 1e30 mixedArrivalSta 0 "rise" (by norm_num) rfl
  refine ⟨rfl, ?_⟩
  rw [hr, hval]
  norm_num [validArrivals, fetchedArrivals, arrivalsOver, clockEdgeCandidates,
    presentVertices, nonSentinel, isTimeInf, signalPolarity, maxOr, mixedArrivalSta, demoSta]

/-- C1 at a failing input: one sink vertex, one analysis point, no named
clock, every arrival `-5`.  The fetched arrivals are all non-sentinel and
their maximum is `-5`, yet `getPinArrival` returns `-1`, the value its
accumulator starts from. -/
theorem getPinArrival_negative_worst :
    negativeArrivalSta.cmdNetwork.isLinked = true
      ∧ fetchedArrivals negativeArrivalSta 0 RiseFall.rise = [-5, -5]
      ∧ validArrivals negativeArrivalSta 0 RiseFall.rise = [-5, -5]
      ∧ maxOr (-1e30) (validArrivals negativeArrivalSta 0 RiseFall.rise) = -5
      ∧ getPinArrival 1e30 negativeArrivalSta 0 "rise" = Except.ok (-1) := by
  have hf : fetchedArrivals negativeArrivalSta 0 RiseFall.rise = [-5, -5] := by
    norm_num [fetchedArrivals, arrivalsOver, clockEdgeCandidates, presentVertices,
      negativeArrivalSta, demoSta]
  have hval : validArrivals negativeArrivalSta 0 RiseFall.rise = [-5, -5] := by
    rw [validArrivals, hf]
    norm_num [nonSentinel, isTimeInf]
  refine ⟨rfl, hf, hval, ?_, ?_⟩
  · rw [hval]
    norm_num [maxOr]
  · norm_num [getPinArrival, vertices, cmdGraph, cmdLinkedNetwork, findClocksMatching,
      getPinArrivalTime, arrivalsClk, isTimeInf, stdMax, defaultArrivalClock,
      negativeArrivalSta, demoSta, bind, Except.bind, pure, Except.pure]

/-- C2 fails at two concrete inputs: a pin with both vertex slots null, and a
pin whose fetched arrivals are all the sentinel `2^40`.  Nothing survives the
filter, `getPinArrivalTime` returns `-sta::INF` (here `-1e30`), yet
`getPinArrival` returns `-1`, not `-sta::INF`. -/
theorem getPinArrival_no_data_counterexample :
    vertices noVertexSta 0 = Except.ok (none, none)
      ∧ getPinArrival 1e30 noVertexSta 0 "rise" = Except.ok (-1)
      ∧ fetchedArrivals allSentinelSta 0 RiseFall.rise
          = [1099511627776, 1099511627776, 1099511627776, 1099511627776]
      ∧ validArrivals allSentinelSta 0 RiseFall.rise = []
      ∧ getPinArrivalTime 1e30 allSentinelSta none RiseFall.rise 0 "arrive" = -1e30
      ∧ getPinArrival 1e30 allSentinelSta 0 "rise" = Except.ok (-1)
      ∧ getPinArrival 1e30 allSentinelSta 0 "rise" ≠ Except.ok (-1e30) := by
  have hf : fetchedArrivals allSentinelSta 0 RiseFall.rise
      = [1099511627776, 1099511627776, 1099511627776, 1099511627776] := by
    norm_num [fetchedArrivals, arrivalsOver, clockEdgeCandidates, presentVertices,
      allSentinelSta, demoSta]
  have hq : getPinArrival 1e30 allSentinelSta 0 "rise" = Except.ok (-1) := by
    norm_num [getPinArrival, vertices, cmdGraph, cmdLinkedNetwork, findClocksMatching,
      getPinArrivalTime, arrivalsClk, isTimeInf, stdMax, defaultArrivalClock,
      allSentinelSta, demoSta, bind, Except.bind, pure, Except.pure]
  refine ⟨rfl, ?_, hf, ?_, ?_, hq, ?_⟩
  · norm_num [getPinArrival, vertices, cmdGraph, cmdLinkedNetwork, noVertexSta, demoSta,
      bind, Except.bind, pure, Except.pure]
  · rw [validArrivals, hf]
    norm_num [nonSentinel, isTimeInf]
  · norm_num [getPinArrivalTime, arrivalsClk, isTimeInf, allSentinelSta, demoSta]
  · rw [hq]
    intro hc
    injection hc with hc
    norm_num at hc

/-- C6 fails at two concrete inputs without a named clock.  With every
arrival the sentinel `2^40` nothing survives in the two tiers, whose maximum
is then the identity `-sta::INF` (here `-1e30`), yet `getPinArrival` returns
`-1`.  With arrival `-3` relative to no clock edge and `-2` relative to the
default arrival clock the maximum over the two tiers is `-2`, yet
`getPinArrival` returns `-1`. -/
theorem getPinArrival_zero_clocks_counterexample :
    zeroClockSentinelSta.sdcFindClocksMatching "*" false false = []
      ∧ nonSentinel (twoTierArrivals zeroClockSentinelSta 0 RiseFall.rise) = []
      ∧ getPinArrival 1e30 zeroClockSentinelSta 0 "rise" = Except.ok (-1)
      ∧ getPinArrival 1e30 zeroClockSentinelSta 0 "rise"
          ≠ Except.ok (maxOr (-1e30)
              (nonSentinel (twoTierArrivals zeroClockSentinelSta 0 RiseFall.rise)))
      ∧ zeroClockSta.sdcFindClocksMatching "*" false false = []
      ∧ nonSentinel (twoTierArrivals zeroClockSta 0 RiseFall.rise) = [-3, -2, -3, -2]
      ∧ getPinArrival 1e30 zeroClockSta 0 "rise" = Except.ok (-1)
      ∧ getPinArrival 1e30 zeroClockSta 0 "rise"
          ≠ Except.ok (maxOr (-1e30)
              (nonSentinel (twoTierArrivals zeroClockSta 0 RiseFall.rise))) := by
  have hv1 : nonSentinel (twoTierArrivals zeroClockSentinelSta 0 RiseFall.rise) = [] := by
    norm_num [twoTierArrivals, arrivalsOver, presentVertices, nonSentinel, isTimeInf,
      zeroClockSentinelSta, demoSta]
  have hq1 : getPinArrival 1e30 zeroClockSentinelSta 0 "rise" = Except.ok (-1) := by
    norm_num [getPinArrival, vertices, cmdGraph, cmdLinkedNetwork, findClocksMatching,
      getPinArrivalTime, arrivalsClk, isTimeInf, stdMax, defaultArrivalClock,
      zeroClockSentinelSta, demoSta, bind, Except.bind, pure, Except.pure]
  have hv2 : nonSentinel (twoTierArrivals zeroClockSta 0 RiseFall.rise)
      = [-3, -2, -3, -2] := by
    norm_num [twoTierArrivals, arrivalsOver, presentVertices, nonSentinel, isTimeInf,
      zeroClockSta, demoSta]
  have hq2 : getPinArrival 1e30 zeroClockSta 0 "rise" = Except.ok (-1) := by
    norm_num [getPinArrival, vertices, cmdGraph, cmdLinkedNetwork, findClocksMatching,
      getPinArrivalTime, arrivalsClk, isTimeInf, stdMax, defaultArrivalClock,
      zeroClockSta, demoSta, bind, Except.bind, pure, Except.pure]
  refine ⟨rfl, hv1, hq1, ?_, rfl, hv2, hq2, ?_⟩
  · rw [hq1, hv1]
    intro hc
    injection hc with hc
    norm_num [maxOr] at hc
  · rw [hq2, hv2]
    intro hc
    injection hc with hc
    norm_num [maxOr] at hc

/-- C2 as amended: on a linked network (with `sta::INF` at least 1), if
nothing survives filtering in `getPinArrival` (both vertex slots null, or
every fetched arrival a sentinel) then `getPinArrival` returns `-1`, the value
its accumulator starts from; that value is not a sentinel. -/
theorem getPinArrival_no_data (INF : ℚ) (st : Sta) (db_pin : ITerm) (rf : String)
    (hINF : 1 ≤ INF) (h : st.cmdNetwork.isLinked = true) :
    (st.ensureGraph.pinVertices (st.dbToSta db_pin) = (none, none) →
        getPinArrival INF st db_pin rf = Except.ok (-1))
      ∧ ((∀ x ∈ fetchedArrivals st (st.dbToSta db_pin) (signalPolarity rf),
            isTimeInf x = true) →
          getPinArrival INF st db_pin rf = Except.ok (-1))
      ∧ isTimeInf (-1) = false := by
  have hall : (∀ x ∈ fetchedArrivals st (st.dbToSta db_pin) (signalPolarity rf),
      isTimeInf x = true) → getPinArrival INF st db_pin rf = Except.ok (-1) := by
    intro hs
    have hnil : validArrivals st (st.dbToSta db_pin) (signalPolarity rf) = [] := by
      unfold validArrivals nonSentinel
      rw [List.filter_eq_nil_iff]
      intro x hx
      simp [hs x hx]
    rw [getPinArrival_eq INF st db_pin rf hINF h, hnil]
    rfl
  refine ⟨?_, hall, ?_⟩
  · intro hv
    apply hall
    intro x hx
    unfold fetchedArrivals at hx
    rw [hv] at hx
    simp [presentVertices, arrivalsOver] at hx
  · norm_num [isTimeInf]

/-- C2 as amended, at a concrete input: every fetched arrival is the sentinel
`2^40` and the query returns `-1`. -/
theorem getPinArrival_no_data_witness :
    allSentinelSta.cmdNetwork.isLinked = true
      ∧ (∀ x ∈ fetchedArrivals allSentinelSta 0 RiseFall.rise, isTimeInf x = true)
      ∧ getPinArrival 1e30 allSentinelSta 0 "rise" = Except.ok (-1) := by
  have hs : ∀ x ∈ fetchedArrivals allSentinelSta 0 RiseFall.rise, isTimeInf x = true := by
    intro x hx
    have hf : fetchedArrivals allSentinelSta 0 RiseFall.rise
        = [1099511627776, 1099511627776, 1099511627776, 1099511627776] := by
      norm_num [fetchedArrivals, arrivalsOver, clockEdgeCandidates, presentVertices,
        allSentinelSta, demoSta]
    rw [hf] at hx
    simp only [List.mem_cons, List.mem_singleton, or_self, List.not_mem_nil, or_false] at hx
    rw [hx]
    norm_num [isTimeInf]
  exact ⟨rfl, hs,
    (getPinArrival_no_data 1e30 allSentinelSta 0 "rise" (by norm_num) rfl).2.1 hs⟩

/-- C6 as amended: on a linked network (with `sta::INF` at least 1) where no
named clock matches `*`, `getPinArrival` evaluates for every present vertex
the no-clock case and the rise edge of the default arrival clock, so every
non-sentinel arrival of these two tiers is bounded by the result; the result
is the maximum over just those two tiers of the non-sentinel arrivals whenever
that maximum is at least `-1`, and it is `-1` when nothing survives. -/
theorem getPinArrival_zero_clocks (INF : ℚ) (st : Sta) (db_pin : ITerm) (rf : String)
    (hINF : 1 ≤ INF) (h : st.cmdNetwork.isLinked = true)
    (hz : st.sdcFindClocksMatching "*" false false = []) :
    ∃ r, getPinArrival INF st db_pin rf = Except.ok r
      ∧ (∀ x ∈ nonSentinel (twoTierArrivals st (st.dbToSta db_pin) (signalPolarity rf)),
          x ≤ r)
      ∧ (nonSentinel (twoTierArrivals st (st.dbToSta db_pin) (signalPolarity rf)) = [] →
          r = -1)
      ∧ (nonSentinel (twoTierArrivals st (st.dbToSta db_pin) (signalPolarity rf)) ≠ [] →
          -1 ≤ maxOr (-INF)
            (nonSentinel (twoTierArrivals st (st.dbToSta db_pin) (signalPolarity rf))) →
          r = maxOr (-INF)
            (nonSentinel (twoTierArrivals st (st.dbToSta db_pin) (signalPolarity rf)))) := by
  have hval : validArrivals st (st.dbToSta db_pin) (signalPolarity rf)
      = nonSentinel (twoTierArrivals st (st.dbToSta db_pin) (signalPolarity rf)) := by
    unfold validArrivals fetchedArrivals twoTierArrivals clockEdgeCandidates
    rw [hz]
    rfl
  refine ⟨_, getPinArrival_eq INF st db_pin rf hINF h, ?_, ?_, ?_⟩
  · intro x hx
    rw [hval]
    exact le_foldl_max_of_mem _ hx
  · intro hnil
    rw [hval, hnil]
    rfl
  · intro hne hle
    rw [hval, foldl_max_eq_max_maxOr (-1) (-INF) hne]
    exact max_eq_right hle

/-- C6 as amended, at a concrete input: no named clock, sink and driver
vertex, arrival `0.2` relative to no clock edge and `0.35` relative to the
default arrival clock; the query returns `0.35`. -/
theorem getPinArrival_zero_clocks_witness :
    zeroClockTimedSta.cmdNetwork.isLinked = true
      ∧ zeroClockTimedSta.sdcFindClocksMatching "*" false false = []
      ∧ getPinArrival 1e30 zeroClockTimedSta 0 "rise" = Except.ok 0.35 := by
  obtain ⟨r, hr, -, -, hmax⟩ :=
    getPinArrival_zero_clocks 1e30 zeroClockTimedSta 0 "rise" (by norm_num) rfl rfl
  have hv : nonSentinel (twoTierArrivals zeroClockTimedSta
      (zeroClockTimedSta.dbToSta 0) (signalPolarity "rise")) = [0.2, 0.35, 0.2, 0.35] := by
    norm_num [twoTierArrivals, arrivalsOver, presentVertices, nonSentinel, isTimeInf,
      signalPolarity, zeroClockTimedSta, demoSta]
  rw [hv] at hmax
  refine ⟨rfl, rfl, ?_⟩
  rw [hr, hmax (by simp) (by norm_num [maxOr])]
  norm_num [maxOr]

end Design
